import Mathlib

/-!
Verification of the GitGPT conflict-block engine.

The scanner (`parse_conflict_file` in `main.py`) and the patcher
(`resolve_conflict` in `executor.py`) are embedded as pure Lean functions
over the file's lines (a `List String`, each line keeping its terminator,
as produced by Python's `readlines`).  File IO is modelled by passing the
line list in and returning the written line list (`some newLines`) or
`none` when the function returns `False` without writing.

Python's `str.startswith` is modelled as a character-prefix test
(`startswith`); Lean's builtin `String.startsWith` denotes the same
predicate but is byte-position based and not kernel-executable, so the
character-list form is used throughout.

The scanner's `while` loops are written with an explicit structural fuel
(`lines.length - i`, the number of line indices left), so that they are
executable by the kernel; the lemmas `scanWhileNot_eq` and `parseLoop_eq`
recover the loops' literal step equations.
-/

namespace GitGPT

/-- Python's `str.startswith`: `pre` is a character-prefix of `s`. -/
def startswith (s pre : String) : Bool :=
  pre.data.isPrefixOf s.data

/-- A conflict block as built by `parse_conflict_file` (`main.py`, lines
61-69): a dict with the file path, the zero-based indices of the opening
and closing marker lines, the joined local/incoming content and the
joined context windows. -/
structure Conflict where
  file_path : String
  start_line : Nat
  end_line : Nat
  current_content : String
  incoming_content : String
  context_before : String
  context_after : String
deriving Repr, DecidableEq

/-- Fuelled form of the inner `while` loops of `parse_conflict_file`
(`main.py` lines 49-51 and 55-57): starting at index `i`, collect lines
while the current line does not start with `pre` and the end of the list
is not reached; return the collected lines and the index where the loop
stopped.  Adequate fuel is `lines.length - i`. -/
def scanWhileNotAux (lines : List String) (pre : String) :
    Nat → Nat → List String × Nat
  | 0, i => ([], i)
  | fuel + 1, i =>
    if h : i < lines.length then
      if startswith (lines[i]) pre then ([], i)
      else
        let r := scanWhileNotAux lines pre fuel (i + 1)
        (lines[i] :: r.1, r.2)
    else ([], i)

/-- The inner collecting loops of `parse_conflict_file`, with the exact
fuel they need. -/
def scanWhileNot (lines : List String) (pre : String) (i : Nat) :
    List String × Nat :=
  scanWhileNotAux lines pre (lines.length - i) i

/-- Fuelled form of the outer `while i < len(lines)` loop of
`parse_conflict_file` (`main.py` lines 40-70).  On a line starting with
`<<<<<<<` it records the 5-line context windows (Python slices
`lines[max(0,i-5):i]` and `lines[i+1:min(len(lines),i+6)]`), runs the two
inner loops, builds the conflict dict with `end_line` the index where the
second inner loop stopped, and resumes at the following index (`i += 1`
at line 70); otherwise it moves one line ahead. -/
def parseLoopAux (fp : String) (lines : List String) :
    Nat → Nat → List Conflict
  | 0, _ => []
  | fuel + 1, i =>
    if h : i < lines.length then
      if startswith (lines[i]) "<<<<<<<" then
        let r1 := scanWhileNot lines "=======" (i + 1)
        let r2 := scanWhileNot lines ">>>>>>>" (r1.2 + 1)
        { file_path := fp
          start_line := i
          end_line := r2.2
          current_content := String.join r1.1
          incoming_content := String.join r2.1
          context_before := String.join ((lines.drop (i - 5)).take (i - (i - 5)))
          context_after :=
            String.join ((lines.drop (r2.2 + 1)).take
              (min lines.length (r2.2 + 6) - (r2.2 + 1))) }
          :: parseLoopAux fp lines fuel (r2.2 + 1)
      else parseLoopAux fp lines fuel (i + 1)
    else []

/-- The outer scanning loop of `parse_conflict_file`, with the exact fuel
it needs. -/
def parseLoop (fp : String) (lines : List String) (i : Nat) : List Conflict :=
  parseLoopAux fp lines (lines.length - i) i

/-- The scanner `parse_conflict_file` (`main.py` lines 28-72) on the
line list read from the file: scan from index 0. -/
def parse_conflict_file (fp : String) (lines : List String) : List Conflict :=
  parseLoop fp lines 0

/-- Python's `str.endswith`: `suf` is a character-suffix of `s`. -/
def endswith (s suf : String) : Bool :=
  suf.data.isSuffixOf s.data

/-- The resolution dict returned by the suggestion collaborator
(`api_client.get_conflict_resolution`), as read by `resolve_conflict`
(`executor.py` lines 119-123) via `.get`: `merged_content` is `none` when
the key is missing. -/
structure Resolution where
  suggestion : String
  merged_content : Option String
  explanation : String
  confidence : String
  reasoning : String
deriving Repr, DecidableEq

/-- The `content_to_apply` selection of `resolve_conflict`
(`executor.py` lines 183-188): the region's own `current_content` for
menu choice `Keep YOUR version`, its `incoming_content` for
`Keep THEIR version`, and the AI `merged_content` otherwise. -/
def contentToApply (cb : Conflict) (mc : String) (choice : String) : String :=
  if choice = "Keep YOUR version" then cb.current_content
  else if choice = "Keep THEIR version" then cb.incoming_content
  else mc

/-- The newline normalization of `resolve_conflict` (`executor.py` lines
195-197): if the content is truthy (non-empty) and does not end with
`"\n"`, append `"\n"`. -/
def ensureNewline (s : String) : String :=
  if s ≠ "" ∧ ¬ endswith s "\n" then s ++ "\n" else s

/-- The patcher `resolve_conflict` (`executor.py` lines 110-215),
modelled on its file-content effect.  `choice` is the string returned by the interactive
menu (lines 160-169).  The result is `none` when the function returns
`False` before reaching the file read/write (missing or empty
`merged_content`, line 125; choice `Cancel`, line 175; choice
`Skip for now`, line 179), and `some newLines` for the line list written
back (lines 191-208: read `lines`, normalize, splice
`lines[:start_line] + [content_to_apply] + lines[end_line+1:]`). -/
def resolve_conflict (cb : Conflict) (res : Resolution) (choice : String)
    (fileLines : List String) : Option (List String) :=
  match res.merged_content with
  | none => none
  | some mc =>
    if mc = "" then none
    else if choice = "Cancel" then none
    else if choice = "Skip for now" then none
    else
      some (fileLines.take cb.start_line
        ++ [ensureNewline (contentToApply cb mc choice)]
        ++ fileLines.drop (cb.end_line + 1))

/-- The splice formula stated by the spec (§4.2):
`fileLines[0 : startLine] ++ [replacementText] ++ fileLines[endLine+1 :]`.
Second definition for the refinement comparison in C3. -/
def spliceSpec (fileLines : List String) (s e : Nat) (replacement : String) :
    List String :=
  fileLines.take s ++ [replacement] ++ fileLines.drop (e + 1)

/-- Modelled from the spec: "the file's dominant terminator style
(line-feed vs carriage-return-line-feed)" (§4.2 normalization, §9).  The
source has no such function; the majority terminator among the file's
lines is taken as the dominant style. -/
def dominantTerminator (fileLines : List String) : String :=
  let crlf := (fileLines.filter (fun l => endswith l "\r\n")).length
  let lf := (fileLines.filter
    (fun l => endswith l "\n" ∧ ¬ endswith l "\r\n")).length
  if lf < crlf then "\r\n" else "\n"

/-- One well-formed conflict chunk as the spec's file format describes
it (§6): an opening marker line, the local lines, a separator line, the
incoming lines, a closing marker line. -/
structure Chunk where
  openL : String
  locals : List String
  sepL : String
  incomings : List String
  closeL : String

/-- The lines a chunk occupies in the file. -/
def Chunk.lines (c : Chunk) : List String :=
  c.openL :: (c.locals ++ c.sepL :: (c.incomings ++ [c.closeL]))

/-- Well-formedness of a chunk for the scanner: the three marker lines
carry their seven-character prefixes (labels may follow) and no content
line fakes the marker that ends its segment. -/
abbrev Chunk.Wf (c : Chunk) : Prop :=
  startswith c.openL "<<<<<<<" = true
  ∧ (∀ l ∈ c.locals, startswith l "=======" = false)
  ∧ startswith c.sepL "=======" = true
  ∧ (∀ l ∈ c.incomings, startswith l ">>>>>>>" = false)
  ∧ startswith c.closeL ">>>>>>>" = true

/-- A well-formed input file: alternating plain segments and conflict
chunks, closed by a trailing plain segment. -/
def buildFile : List (List String × Chunk) → List String → List String
  | [], trail => trail
  | (pl, c) :: rest, trail => pl ++ (c.lines ++ buildFile rest trail)

/-- The fields of a scanned region that C4 talks about: `start_line`,
`end_line`, local content, incoming content. -/
def regionSummary (r : Conflict) : Nat × Nat × String × String :=
  (r.start_line, r.end_line, r.current_content, r.incoming_content)

/-- The summaries the scanner is expected to produce on a well-formed
file whose first chunk starts after `i` prefix lines: one region per
chunk, spanning its opening to its closing marker line, with exactly the
chunk's local and incoming lines as content. -/
def expectedSummaries : Nat → List (List String × Chunk) →
    List (Nat × Nat × String × String)
  | _, [] => []
  | i, (pl, c) :: rest =>
    (i + pl.length,
      i + pl.length + c.locals.length + c.incomings.length + 2,
      String.join c.locals, String.join c.incomings)
      :: expectedSummaries
        (i + pl.length + c.locals.length + c.incomings.length + 3) rest

theorem scanWhileNotAux_irrel (lines : List String) (pre : String) :
    ∀ n m i, lines.length - i ≤ n → lines.length - i ≤ m →
      scanWhileNotAux lines pre n i = scanWhileNotAux lines pre m i := by
  intro n
  induction n with
  | zero =>
    intro m i hn hm
    have hi : ¬ i < lines.length := by omega
    cases m with
    | zero => rfl
    | succ m => simp [scanWhileNotAux, hi]
  | succ n ih =>
    intro m i hn hm
    cases m with
    | zero =>
      have hi : ¬ i < lines.length := by omega
      simp [scanWhileNotAux, hi]
    | succ m =>
      by_cases hi : i < lines.length
      · simp only [scanWhileNotAux, hi, dite_true]
        by_cases hs : startswith (lines[i]) pre
        · simp [hs]
        · simp only [hs, Bool.false_eq_true, if_false]
          rw [ih m (i + 1) (by omega) (by omega)]
      · simp [scanWhileNotAux, hi]

/-- The loop-step equation of the inner loops: this is exactly the shape
of the Python `while` loops at `main.py` lines 49-51 and 55-57. -/
theorem scanWhileNot_eq (lines : List String) (pre : String) (i : Nat) :
    scanWhileNot lines pre i =
      if h : i < lines.length then
        if startswith (lines[i]) pre then ([], i)
        else
          ((lines[i]) :: (scanWhileNot lines pre (i + 1)).1,
            (scanWhileNot lines pre (i + 1)).2)
      else ([], i) := by
  unfold scanWhileNot
  by_cases hi : i < lines.length
  · have hk : lines.length - i = (lines.length - (i + 1)) + 1 := by omega
    rw [hk]
    simp only [scanWhileNotAux, hi, dite_true]
  · have hk : lines.length - i = 0 := by omega
    rw [hk]
    simp [scanWhileNotAux, hi]

theorem scanWhileNot_ge (lines : List String) (pre : String) (i : Nat) :
    i ≤ (scanWhileNot lines pre i).2 := by
  have key : ∀ n i, i ≤ (scanWhileNotAux lines pre n i).2 := by
    intro n
    induction n with
    | zero => intro i; simp [scanWhileNotAux]
    | succ n ih =>
      intro i
      by_cases hi : i < lines.length
      · simp only [scanWhileNotAux, hi, dite_true]
        by_cases hs : startswith (lines[i]) pre
        · simp [hs]
        · simp only [hs, Bool.false_eq_true, if_false]
          have := ih (i + 1)
          omega
      · simp [scanWhileNotAux, hi]
  exact key _ i

theorem parseLoopAux_irrel (fp : String) (lines : List String) :
    ∀ n m i, lines.length - i ≤ n → lines.length - i ≤ m →
      parseLoopAux fp lines n i = parseLoopAux fp lines m i := by
  intro n
  induction n with
  | zero =>
    intro m i hn hm
    have hi : ¬ i < lines.length := by omega
    cases m with
    | zero => rfl
    | succ m => simp [parseLoopAux, hi]
  | succ n ih =>
    intro m i hn hm
    cases m with
    | zero =>
      have hi : ¬ i < lines.length := by omega
      simp [parseLoopAux, hi]
    | succ m =>
      by_cases hi : i < lines.length
      · simp only [parseLoopAux, hi, dite_true]
        by_cases hs : startswith (lines[i]) "<<<<<<<"
        · simp only [hs, if_true]
          have h1 := scanWhileNot_ge lines "=======" (i + 1)
          have h2 := scanWhileNot_ge lines ">>>>>>>"
            ((scanWhileNot lines "=======" (i + 1)).2 + 1)
          rw [ih m _ (by omega) (by omega)]
        · simp only [hs, Bool.false_eq_true, if_false]
          rw [ih m (i + 1) (by omega) (by omega)]
      · simp [parseLoopAux, hi]

/-- The loop-step equation of the outer scanning loop: exactly the shape
of `parse_conflict_file`'s `while` loop (`main.py` lines 40-70). -/
theorem parseLoop_eq (fp : String) (lines : List String) (i : Nat) :
    parseLoop fp lines i =
      if h : i < lines.length then
        if startswith (lines[i]) "<<<<<<<" then
          { file_path := fp
            start_line := i
            end_line := (scanWhileNot lines ">>>>>>>"
              ((scanWhileNot lines "=======" (i + 1)).2 + 1)).2
            current_content := String.join (scanWhileNot lines "=======" (i + 1)).1
            incoming_content := String.join (scanWhileNot lines ">>>>>>>"
              ((scanWhileNot lines "=======" (i + 1)).2 + 1)).1
            context_before := String.join ((lines.drop (i - 5)).take (i - (i - 5)))
            context_after :=
              String.join ((lines.drop ((scanWhileNot lines ">>>>>>>"
                ((scanWhileNot lines "=======" (i + 1)).2 + 1)).2 + 1)).take
                (min lines.length ((scanWhileNot lines ">>>>>>>"
                  ((scanWhileNot lines "=======" (i + 1)).2 + 1)).2 + 6) -
                  ((scanWhileNot lines ">>>>>>>"
                    ((scanWhileNot lines "=======" (i + 1)).2 + 1)).2 + 1))) }
            :: parseLoop fp lines ((scanWhileNot lines ">>>>>>>"
              ((scanWhileNot lines "=======" (i + 1)).2 + 1)).2 + 1)
        else parseLoop fp lines (i + 1)
      else [] := by
  unfold parseLoop
  by_cases hi : i < lines.length
  · have hk : lines.length - i = (lines.length - (i + 1)) + 1 := by omega
    rw [hk]
    simp only [parseLoopAux, hi, dite_true]
    by_cases hs : startswith (lines[i]) "<<<<<<<"
    · simp only [hs, if_true]
      have h1 := scanWhileNot_ge lines "=======" (i + 1)
      have h2 := scanWhileNot_ge lines ">>>>>>>"
        ((scanWhileNot lines "=======" (i + 1)).2 + 1)
      congr 1
      exact parseLoopAux_irrel fp lines _ _ _ (by omega) (by omega)
    · simp only [hs, Bool.false_eq_true, if_false]
  · have hk : lines.length - i = 0 := by omega
    rw [hk]
    simp [parseLoopAux, hi]

/-- Helper: whenever `merged_content` is present and non-empty and the
menu choice is neither `Cancel` nor `Skip for now`, `resolve_conflict`
writes the spliced line list. -/
theorem resolve_conflict_write (cb : Conflict) (res : Resolution)
    (choice : String) (fileLines : List String) (mc : String)
    (hmc : res.merged_content = some mc) (hne : mc ≠ "")
    (hc1 : choice ≠ "Cancel") (hc2 : choice ≠ "Skip for now") :
    resolve_conflict cb res choice fileLines
      = some (fileLines.take cb.start_line
          ++ [ensureNewline (contentToApply cb mc choice)]
          ++ fileLines.drop (cb.end_line + 1)) := by
  simp only [resolve_conflict, hmc]
  rw [if_neg hne, if_neg hc1, if_neg hc2]

/-- Helper: for the menu choice `Accept AI suggestion` the selected
content is the AI `merged_content`. -/
theorem contentToApply_accept (cb : Conflict) (mc : String) :
    contentToApply cb mc "Accept AI suggestion" = mc := by
  unfold contentToApply
  rw [if_neg (by decide), if_neg (by decide)]

/-- Helper: an element of the splice result strictly before `startLine`
is the corresponding original line. -/
theorem spliceSpec_get_before (fileLines : List String) (s e : Nat)
    (c : String) (hs : s ≤ fileLines.length) (j : Nat) (hj : j < s) :
    (spliceSpec fileLines s e c)[j]? = fileLines[j]? := by
  unfold spliceSpec
  have hlen : (fileLines.take s).length = s := by
    rw [List.length_take]
    omega
  rw [List.append_assoc, List.getElem?_append]
  rw [hlen, if_pos hj]
  rw [List.getElem?_take, if_pos hj]

/-- Helper: the elements of the splice result after the replacement are
the original lines after `endLine`, shifted to start at `startLine + 1`. -/
theorem spliceSpec_get_after (fileLines : List String) (s e : Nat)
    (c : String) (hs : s ≤ fileLines.length) (j : Nat) :
    (spliceSpec fileLines s e c)[s + 1 + j]? = fileLines[e + 1 + j]? := by
  unfold spliceSpec
  have hlen : (fileLines.take s).length = s := by
    rw [List.length_take]
    omega
  rw [List.append_assoc, List.getElem?_append]
  rw [hlen, if_neg (by omega)]
  have h1 : s + 1 + j - s = 1 + j := by omega
  rw [h1]
  rw [List.singleton_append]
  have h2 : 1 + j = j + 1 := by omega
  rw [h2, List.getElem?_cons_succ]
  rw [List.getElem?_drop]

/-- C3: whenever `resolve_conflict` writes, the written line list is
exactly the spec's splice
`fileLines[0 : startLine] ++ [replacementText] ++ fileLines[endLine+1 :]`
for the resolved (selected and normalized) replacement text; every line
strictly before `startLine` and every line after `endLine` is unchanged
(the latter shifted to follow the single replacement entry). -/
theorem C3_patcher_is_spec_splice (cb : Conflict) (res : Resolution)
    (choice : String) (fileLines : List String) (mc : String)
    (hmc : res.merged_content = some mc) (hne : mc ≠ "")
    (hc1 : choice ≠ "Cancel") (hc2 : choice ≠ "Skip for now") :
    resolve_conflict cb res choice fileLines
      = some (spliceSpec fileLines cb.start_line cb.end_line
          (ensureNewline (contentToApply cb mc choice)))
    ∧ (cb.start_line ≤ fileLines.length →
        (∀ j, j < cb.start_line →
          (spliceSpec fileLines cb.start_line cb.end_line
            (ensureNewline (contentToApply cb mc choice)))[j]?
            = fileLines[j]?)
        ∧ (∀ j,
          (spliceSpec fileLines cb.start_line cb.end_line
            (ensureNewline (contentToApply cb mc choice)))[cb.start_line + 1 + j]?
            = fileLines[cb.end_line + 1 + j]?)) := by
  refine ⟨?_, fun hs => ⟨?_, ?_⟩⟩
  · rw [resolve_conflict_write cb res choice fileLines mc hmc hne hc1 hc2]
    rfl
  · intro j hj
    exact spliceSpec_get_before fileLines cb.start_line cb.end_line _ hs j hj
  · intro j
    exact spliceSpec_get_after fileLines cb.start_line cb.end_line _ hs j

theorem C3_witness :
    (({ suggestion := "custom", merged_content := some "z\n",
        explanation := "", confidence := "HIGH",
        reasoning := "" } : Resolution).merged_content = some "z\n")
    ∧ resolve_conflict
        { file_path := "f", start_line := 1, end_line := 5,
          current_content := "x\n", incoming_content := "y\n",
          context_before := "a\n", context_after := "b\n" }
        { suggestion := "custom", merged_content := some "z\n",
          explanation := "", confidence := "HIGH", reasoning := "" }
        "Accept AI suggestion"
        ["a\n", "<<<<<<< HEAD\n", "x\n", "=======\n", "y\n", ">>>>>>> feature\n", "b\n"]
        = some (spliceSpec
            ["a\n", "<<<<<<< HEAD\n", "x\n", "=======\n", "y\n", ">>>>>>> feature\n", "b\n"]
            1 5
            (ensureNewline (contentToApply
              { file_path := "f", start_line := 1, end_line := 5,
                current_content := "x\n", incoming_content := "y\n",
                context_before := "a\n", context_after := "b\n" }
              "z\n" "Accept AI suggestion"))) :=
  ⟨rfl,
    (C3_patcher_is_spec_splice _ _ "Accept AI suggestion" _ "z\n"
      rfl (by decide) (by decide) (by decide)).1⟩

/-- C1: on the line list
`["a\n","<<<<<<< HEAD\n","x\n","=======\n","y\n",">>>>>>> feature\n","b\n"]`
the scanner returns exactly one region with `start_line = 1`,
`end_line = 5`, local content `"x\n"`, incoming content `"y\n"`, context
before `"a\n"`, context after `"b\n"`; and applying keep-incoming (menu
choice `Keep THEIR version`) to that region writes
`["a\n","y\n","b\n"]`. -/
theorem C1_concrete_scan_and_keep_incoming :
    parse_conflict_file "f"
      ["a\n", "<<<<<<< HEAD\n", "x\n", "=======\n", "y\n", ">>>>>>> feature\n", "b\n"]
      = [{ file_path := "f", start_line := 1, end_line := 5,
           current_content := "x\n", incoming_content := "y\n",
           context_before := "a\n", context_after := "b\n" }] ∧
    resolve_conflict
      { file_path := "f", start_line := 1, end_line := 5,
        current_content := "x\n", incoming_content := "y\n",
        context_before := "a\n", context_after := "b\n" }
      { suggestion := "keep_incoming", merged_content := some "y\n",
        explanation := "", confidence := "HIGH", reasoning := "" }
      "Keep THEIR version"
      ["a\n", "<<<<<<< HEAD\n", "x\n", "=======\n", "y\n", ">>>>>>> feature\n", "b\n"]
      = some ["a\n", "y\n", "b\n"] := by
  constructor
  · decide
  · decide

/-- C9: the file content written by `resolve_conflict` depends on the
resolution only through `merged_content`: two resolutions that agree on
`merged_content` but differ in `suggestion`, `confidence`, `explanation`
or `reasoning` produce the same outcome for every region, menu choice and
file content. -/
theorem C9_written_content_ignores_suggestion_tag
    (cb : Conflict) (choice : String) (fileLines : List String)
    (res1 res2 : Resolution)
    (h : res1.merged_content = res2.merged_content) :
    resolve_conflict cb res1 choice fileLines
      = resolve_conflict cb res2 choice fileLines := by
  unfold resolve_conflict
  rw [h]

theorem C9_witness :
    ({ suggestion := "keep_both", merged_content := some "z\n",
       explanation := "a", confidence := "HIGH",
       reasoning := "b" } : Resolution).merged_content
      = ({ suggestion := "custom", merged_content := some "z\n",
           explanation := "c", confidence := "LOW",
           reasoning := "d" } : Resolution).merged_content ∧
    resolve_conflict
      { file_path := "f", start_line := 1, end_line := 5,
        current_content := "x\n", incoming_content := "y\n",
        context_before := "a\n", context_after := "b\n" }
      { suggestion := "keep_both", merged_content := some "z\n",
        explanation := "a", confidence := "HIGH", reasoning := "b" }
      "Accept AI suggestion"
      ["a\n", "<<<<<<< HEAD\n", "x\n", "=======\n", "y\n", ">>>>>>> feature\n", "b\n"]
      = resolve_conflict
        { file_path := "f", start_line := 1, end_line := 5,
          current_content := "x\n", incoming_content := "y\n",
          context_before := "a\n", context_after := "b\n" }
        { suggestion := "custom", merged_content := some "z\n",
          explanation := "c", confidence := "LOW", reasoning := "d" }
        "Accept AI suggestion"
        ["a\n", "<<<<<<< HEAD\n", "x\n", "=======\n", "y\n", ">>>>>>> feature\n", "b\n"] :=
  ⟨by decide,
    C9_written_content_ignores_suggestion_tag _ "Accept AI suggestion" _ _ _ (by decide)⟩

/-- C10: when `merged_content` is missing or empty, or the menu choice is
`Cancel` or `Skip for now`, `resolve_conflict` returns `False` before the
file read/write block (`executor.py` lines 125-181), so the on-disk
content is unchanged (result `none`). -/
theorem C10_no_write_on_empty_or_cancel_or_skip
    (cb : Conflict) (res : Resolution) (choice : String)
    (fileLines : List String)
    (h : res.merged_content = none ∨ res.merged_content = some ""
      ∨ choice = "Cancel" ∨ choice = "Skip for now") :
    resolve_conflict cb res choice fileLines = none := by
  unfold resolve_conflict
  rcases h with h | h | h | h
  · rw [h]
  · rw [h]; simp
  · cases hm : res.merged_content with
    | none => rfl
    | some mc => simp [h]
  · cases hm : res.merged_content with
    | none => rfl
    | some mc =>
      by_cases he : mc = ""
      · simp [he]
      · simp [he, h]

theorem C10_witness :
    (({ suggestion := "keep_current", merged_content := some "z\n",
        explanation := "", confidence := "HIGH",
        reasoning := "" } : Resolution).merged_content = none
      ∨ ({ suggestion := "keep_current", merged_content := some "z\n",
           explanation := "", confidence := "HIGH",
           reasoning := "" } : Resolution).merged_content = some ""
      ∨ "Cancel" = "Cancel" ∨ "Cancel" = "Skip for now") ∧
    resolve_conflict
      { file_path := "f", start_line := 1, end_line := 5,
        current_content := "x\n", incoming_content := "y\n",
        context_before := "a\n", context_after := "b\n" }
      { suggestion := "keep_current", merged_content := some "z\n",
        explanation := "", confidence := "HIGH", reasoning := "" }
      "Cancel"
      ["a\n", "<<<<<<< HEAD\n", "x\n", "=======\n", "y\n", ">>>>>>> feature\n", "b\n"]
      = none :=
  ⟨by decide,
    C10_no_write_on_empty_or_cancel_or_skip _ _ _ _ (by decide)⟩

/-- Helper: normalization keeps a non-empty content non-empty. -/
theorem ensureNewline_ne_empty (s : String) (h : s ≠ "") :
    ensureNewline s ≠ "" := by
  unfold ensureNewline
  split
  · intro hc
    have h2 : (s ++ "\n").length = 0 := by rw [hc]; rfl
    rw [String.length_append] at h2
    have h3 : ("\n" : String).length = 1 := rfl
    omega
  · exact h

/-- C5 counterexample: for the C1 region (local `"x\n"`, incoming
`"y\n"`), accepting a resolution tagged `keep_both` whose
`merged_content` is `"z\n"` writes `"z\n"`, not the concatenation
`"x\ny\n"` of local and incoming: there is no keep-both pathway that
derives the replacement from the region's own contents. -/
theorem C5_counterexample :
    resolve_conflict
      { file_path := "f", start_line := 1, end_line := 5,
        current_content := "x\n", incoming_content := "y\n",
        context_before := "a\n", context_after := "b\n" }
      { suggestion := "keep_both", merged_content := some "z\n",
        explanation := "", confidence := "HIGH", reasoning := "" }
      "Accept AI suggestion"
      ["a\n", "<<<<<<< HEAD\n", "x\n", "=======\n", "y\n", ">>>>>>> feature\n", "b\n"]
      = some ["a\n", "z\n", "b\n"]
    ∧ ("z\n" : String) ≠ "x\n" ++ "y\n" := by
  constructor
  · decide
  · decide

/-- C5 amended: the engine has no keep-both choice.  When the user
accepts an AI resolution tagged `keep_both`, the written replacement is
the resolution's normalized `merged_content`, whatever it is; the
region's own contents are not consulted. -/
theorem C5_amended_keep_both_writes_merged_content
    (cb : Conflict) (res : Resolution) (fileLines : List String)
    (mc : String) (_hsug : res.suggestion = "keep_both")
    (hmc : res.merged_content = some mc) (hne : mc ≠ "") :
    resolve_conflict cb res "Accept AI suggestion" fileLines
      = some (spliceSpec fileLines cb.start_line cb.end_line
          (ensureNewline mc)) := by
  rw [resolve_conflict_write cb res _ fileLines mc hmc hne
    (by decide) (by decide)]
  rw [contentToApply_accept]
  rfl

theorem C5_witness :
    (({ suggestion := "keep_both", merged_content := some "z\n",
        explanation := "", confidence := "HIGH",
        reasoning := "" } : Resolution).suggestion = "keep_both")
    ∧ resolve_conflict
        { file_path := "f", start_line := 1, end_line := 5,
          current_content := "x\n", incoming_content := "y\n",
          context_before := "a\n", context_after := "b\n" }
        { suggestion := "keep_both", merged_content := some "z\n",
          explanation := "", confidence := "HIGH", reasoning := "" }
        "Accept AI suggestion"
        ["a\n", "<<<<<<< HEAD\n", "x\n", "=======\n", "y\n", ">>>>>>> feature\n", "b\n"]
        = some (spliceSpec
            ["a\n", "<<<<<<< HEAD\n", "x\n", "=======\n", "y\n", ">>>>>>> feature\n", "b\n"]
            1 5 (ensureNewline "z\n")) :=
  ⟨rfl,
    C5_amended_keep_both_writes_merged_content _ _ _ "z\n" rfl rfl (by decide)⟩

/-- C6 counterexample: scanning a file whose conflict has an empty local
side yields a region with `current_content = ""`; choosing
`Keep YOUR version` on it then writes an empty replacement — the
normalized replacement is empty and the write still occurs, so empty
resolutions are not rejected for every choice. -/
theorem C6_counterexample :
    parse_conflict_file "f"
      ["a\n", "<<<<<<< HEAD\n", "=======\n", "y\n", ">>>>>>> feature\n", "b\n"]
      = [{ file_path := "f", start_line := 1, end_line := 4,
           current_content := "", incoming_content := "y\n",
           context_before := "a\n", context_after := "b\n" }]
    ∧ resolve_conflict
        { file_path := "f", start_line := 1, end_line := 4,
          current_content := "", incoming_content := "y\n",
          context_before := "a\n", context_after := "b\n" }
        { suggestion := "keep_incoming", merged_content := some "y\n",
          explanation := "", confidence := "HIGH", reasoning := "" }
        "Keep YOUR version"
        ["a\n", "<<<<<<< HEAD\n", "=======\n", "y\n", ">>>>>>> feature\n", "b\n"]
        = some ["a\n", "", "b\n"]
    ∧ ensureNewline "" = "" := by
  refine ⟨?_, ?_, ?_⟩
  · decide
  · decide
  · decide

/-- C6 amended: a write only occurs when the resolution's
`merged_content` is present and non-empty (the emptiness check at
`executor.py` line 125 runs before any menu choice and before any file
access); and on the `Accept AI suggestion` path the spliced replacement
is the normalized `merged_content`, which is then non-empty.  For
`Keep YOUR version`/`Keep THEIR version` the replacement is the region's
own content and may be empty (see the counterexample). -/
theorem C6_amended_empty_merged_rejected
    (cb : Conflict) (res : Resolution) (choice : String)
    (fileLines newLines : List String)
    (h : resolve_conflict cb res choice fileLines = some newLines) :
    (∃ mc, res.merged_content = some mc ∧ mc ≠ "")
    ∧ (choice = "Accept AI suggestion" →
        ∃ mc, res.merged_content = some mc
          ∧ newLines = spliceSpec fileLines cb.start_line cb.end_line
              (ensureNewline mc)
          ∧ ensureNewline mc ≠ "") := by
  cases hm : res.merged_content with
  | none => simp [resolve_conflict, hm] at h
  | some mc =>
    simp only [resolve_conflict, hm] at h
    by_cases h1 : mc = ""
    · rw [if_pos h1] at h
      exact absurd h (by simp)
    · rw [if_neg h1] at h
      by_cases h2 : choice = "Cancel"
      · rw [if_pos h2] at h
        exact absurd h (by simp)
      · rw [if_neg h2] at h
        by_cases h3 : choice = "Skip for now"
        · rw [if_pos h3] at h
          exact absurd h (by simp)
        · rw [if_neg h3] at h
          have h4 := Option.some.inj h
          refine ⟨⟨mc, rfl, h1⟩, fun hch => ⟨mc, rfl, ?_, ensureNewline_ne_empty mc h1⟩⟩
          subst hch
          rw [← h4, contentToApply_accept]
          rfl

theorem C6_witness :
    resolve_conflict
      { file_path := "f", start_line := 1, end_line := 5,
        current_content := "x\n", incoming_content := "y\n",
        context_before := "a\n", context_after := "b\n" }
      { suggestion := "custom", merged_content := some "z\n",
        explanation := "", confidence := "HIGH", reasoning := "" }
      "Accept AI suggestion"
      ["a\n", "<<<<<<< HEAD\n", "x\n", "=======\n", "y\n", ">>>>>>> feature\n", "b\n"]
      = some ["a\n", "z\n", "b\n"]
    ∧ (∃ mc,
        ({ suggestion := "custom", merged_content := some "z\n",
           explanation := "", confidence := "HIGH",
           reasoning := "" } : Resolution).merged_content = some mc
        ∧ mc ≠ "") :=
  ⟨by decide,
    (C6_amended_empty_merged_rejected
      { file_path := "f", start_line := 1, end_line := 5,
        current_content := "x\n", incoming_content := "y\n",
        context_before := "a\n", context_after := "b\n" }
      { suggestion := "custom", merged_content := some "z\n",
        explanation := "", confidence := "HIGH", reasoning := "" }
      "Accept AI suggestion"
      ["a\n", "<<<<<<< HEAD\n", "x\n", "=======\n", "y\n", ">>>>>>> feature\n", "b\n"]
      ["a\n", "z\n", "b\n"]
      (by decide)).1⟩

/-- C7 counterexample: in a file whose every line ends with `"\r\n"`
(carriage-return-line-feed dominant), a replacement `"z"` without a
terminator is written as `"z\n"` — the appended terminator is a bare
line-feed, not the file's dominant style. -/
theorem C7_counterexample :
    resolve_conflict
      { file_path := "f", start_line := 1, end_line := 5,
        current_content := "x\r\n", incoming_content := "y\r\n",
        context_before := "a\r\n", context_after := "b\r\n" }
      { suggestion := "custom", merged_content := some "z",
        explanation := "", confidence := "HIGH", reasoning := "" }
      "Accept AI suggestion"
      ["a\r\n", "<<<<<<< HEAD\r\n", "x\r\n", "=======\r\n", "y\r\n", ">>>>>>> feature\r\n", "b\r\n"]
      = some ["a\r\n", "z\n", "b\r\n"]
    ∧ dominantTerminator
        ["a\r\n", "<<<<<<< HEAD\r\n", "x\r\n", "=======\r\n", "y\r\n", ">>>>>>> feature\r\n", "b\r\n"]
        = "\r\n"
    ∧ endswith "z\n" "\r\n" = false := by
  refine ⟨?_, ?_, ?_⟩
  · decide
  · decide
  · decide

/-- C7 amended: when the replacement text is non-empty and does not end
with `"\n"`, the patcher appends a bare line-feed `"\n"`, regardless of
the file's terminator style; replacement text already ending in `"\n"`,
or empty, is spliced unchanged. -/
theorem C7_amended_appends_bare_linefeed
    (cb : Conflict) (res : Resolution) (choice : String)
    (fileLines : List String) (mc : String)
    (hmc : res.merged_content = some mc) (hne : mc ≠ "")
    (hc1 : choice ≠ "Cancel") (hc2 : choice ≠ "Skip for now") :
    resolve_conflict cb res choice fileLines
      = some (fileLines.take cb.start_line
          ++ [if contentToApply cb mc choice ≠ ""
                ∧ ¬ endswith (contentToApply cb mc choice) "\n"
              then contentToApply cb mc choice ++ "\n"
              else contentToApply cb mc choice]
          ++ fileLines.drop (cb.end_line + 1)) := by
  rw [resolve_conflict_write cb res choice fileLines mc hmc hne hc1 hc2]
  rfl

theorem C7_witness :
    resolve_conflict
      { file_path := "f", start_line := 1, end_line := 2,
        current_content := "x", incoming_content := "y\n",
        context_before := "", context_after := "" }
      { suggestion := "keep_current", merged_content := some "m\n",
        explanation := "", confidence := "HIGH", reasoning := "" }
      "Keep YOUR version"
      ["<<<<<<< HEAD\n", "x\n", ">>>>>>> feature\n"]
      = some (["<<<<<<< HEAD\n"].take 1
          ++ [if contentToApply
                { file_path := "f", start_line := 1, end_line := 2,
                  current_content := "x", incoming_content := "y\n",
                  context_before := "", context_after := "" }
                "m\n" "Keep YOUR version" ≠ ""
                ∧ ¬ endswith (contentToApply
                    { file_path := "f", start_line := 1, end_line := 2,
                      current_content := "x", incoming_content := "y\n",
                      context_before := "", context_after := "" }
                    "m\n" "Keep YOUR version") "\n"
              then contentToApply
                { file_path := "f", start_line := 1, end_line := 2,
                  current_content := "x", incoming_content := "y\n",
                  context_before := "", context_after := "" }
                "m\n" "Keep YOUR version" ++ "\n"
              else contentToApply
                { file_path := "f", start_line := 1, end_line := 2,
                  current_content := "x", incoming_content := "y\n",
                  context_before := "", context_after := "" }
                "m\n" "Keep YOUR version"]
          ++ (["<<<<<<< HEAD\n", "x\n", ">>>>>>> feature\n"] : List String).drop 3) := by
  have h := C7_amended_appends_bare_linefeed
    { file_path := "f", start_line := 1, end_line := 2,
      current_content := "x", incoming_content := "y\n",
      context_before := "", context_after := "" }
    { suggestion := "keep_current", merged_content := some "m\n",
      explanation := "", confidence := "HIGH", reasoning := "" }
    "Keep YOUR version"
    ["<<<<<<< HEAD\n", "x\n", ">>>>>>> feature\n"]
    "m\n" rfl (by decide) (by decide) (by decide)
  rw [h]
  rfl

/-- Helper: if an inner loop stops strictly inside the list, the line it
stopped at starts with the marker prefix it was scanning for. -/
theorem scanWhileNot_stop (lines : List String) (pre : String) (i : Nat)
    (h : (scanWhileNot lines pre i).2 < lines.length) :
    startswith (lines[(scanWhileNot lines pre i).2]) pre = true := by
  have key : ∀ n i, lines.length - i ≤ n →
      ∀ (h : (scanWhileNotAux lines pre n i).2 < lines.length),
        startswith (lines[(scanWhileNotAux lines pre n i).2]) pre = true := by
    intro n
    induction n with
    | zero =>
      intro i hn h
      simp only [scanWhileNotAux] at h
      omega
    | succ n ih =>
      intro i hn h
      by_cases hi : i < lines.length
      · by_cases hp : startswith (lines[i]) pre
        · simp only [scanWhileNotAux, hi, dite_true, hp, if_true]
        · have hrec := ih (i + 1) (by omega)
          simp only [scanWhileNotAux, hi, dite_true, hp, Bool.false_eq_true,
            if_false] at h ⊢
          exact hrec h
      · simp only [scanWhileNotAux, hi, dite_false] at h
  exact key (lines.length - i) i le_rfl h

/-- Helper: if some line at or after position `j` opens a conflict and no
line from `j` on closes one, the scan from any position `i ≤ j` returns a
region whose `end_line` is at least the number of lines in the file. -/
theorem parseLoop_unterminated (fp : String) (lines : List String) :
    ∀ n i j, lines.length - i ≤ n → i ≤ j → ∀ (hj : j < lines.length),
      startswith (lines[j]) "<<<<<<<" = true →
      (∀ k, j ≤ k → ∀ (hk : k < lines.length),
        startswith (lines[k]) ">>>>>>>" = false) →
      ∃ r ∈ parseLoop fp lines i, lines.length ≤ r.end_line := by
  intro n
  induction n with
  | zero => intro i j hn hij hj hopen hnc; omega
  | succ n ih =>
    intro i j hn hij hj hopen hnc
    have hi : i < lines.length := by omega
    rw [parseLoop_eq, dif_pos hi]
    by_cases hs : startswith (lines[i]) "<<<<<<<"
    · rw [if_pos hs]
      have h1 := scanWhileNot_ge lines "=======" (i + 1)
      have h2 := scanWhileNot_ge lines ">>>>>>>"
        ((scanWhileNot lines "=======" (i + 1)).2 + 1)
      by_cases hcl : (scanWhileNot lines ">>>>>>>"
          ((scanWhileNot lines "=======" (i + 1)).2 + 1)).2 < lines.length
      · have hcls := scanWhileNot_stop lines ">>>>>>>"
          ((scanWhileNot lines "=======" (i + 1)).2 + 1) hcl
        have hcj : (scanWhileNot lines ">>>>>>>"
            ((scanWhileNot lines "=======" (i + 1)).2 + 1)).2 < j := by
          by_contra hge
          push_neg at hge
          rw [hnc _ hge hcl] at hcls
          exact Bool.false_ne_true hcls
        obtain ⟨r, hrmem, hrend⟩ :=
          ih ((scanWhileNot lines ">>>>>>>"
            ((scanWhileNot lines "=======" (i + 1)).2 + 1)).2 + 1) j
            (by omega) (by omega) hj hopen hnc
        exact ⟨r, List.mem_cons_of_mem _ hrmem, hrend⟩
      · refine ⟨_, List.mem_cons_self _ _, ?_⟩
        show lines.length ≤ (scanWhileNot lines ">>>>>>>"
          ((scanWhileNot lines "=======" (i + 1)).2 + 1)).2
        omega
    · rw [if_neg hs]
      have hij2 : i + 1 ≤ j := by
        rcases Nat.lt_or_ge i j with hlt | hge
        · omega
        · have heq : i = j := by omega
          subst heq
          exact absurd hopen (by simpa using hs)
      exact ih (i + 1) j (by omega) hij2 hj hopen hnc

/-- C2 counterexample: on `["<<<<<<< HEAD\n", "x\n"]` — an opening
marker never followed by a closing marker — the scanner surfaces no
error and returns a region whose `end_line` is `3`, beyond the file's
line count of `2` (the region is neither dropped nor truncated safely,
contradicting the claimed DetectionError behaviour). -/
theorem C2_counterexample :
    parse_conflict_file "f" ["<<<<<<< HEAD\n", "x\n"]
      = [{ file_path := "f", start_line := 0, end_line := 3,
           current_content := "x\n", incoming_content := "",
           context_before := "", context_after := "" }]
    ∧ (["<<<<<<< HEAD\n", "x\n"] : List String).length ≤ 3 := by
  constructor
  · decide
  · decide

/-- C2 amended: for every input containing an opening marker line such
that no line at or after it is a closing marker line, the scanner
surfaces no error and returns a region whose `end_line` is at least the
file's line count (so the claimed bound `end_line < line count` is
violated rather than protected). -/
theorem C2_amended_unterminated_yields_out_of_range
    (fp : String) (lines : List String) (j : Nat)
    (hj : j < lines.length)
    (hopen : startswith (lines[j]) "<<<<<<<" = true)
    (hnoclose : ∀ k, j ≤ k → ∀ (hk : k < lines.length),
      startswith (lines[k]) ">>>>>>>" = false) :
    ∃ r ∈ parse_conflict_file fp lines, lines.length ≤ r.end_line := by
  unfold parse_conflict_file
  exact parseLoop_unterminated fp lines lines.length 0 j (by omega)
    (by omega) hj hopen hnoclose

theorem C2_witness :
    ∃ r ∈ parse_conflict_file "f" ["<<<<<<< HEAD\n", "x\n"],
      (["<<<<<<< HEAD\n", "x\n"] : List String).length ≤ r.end_line :=
  C2_amended_unterminated_yields_out_of_range "f" ["<<<<<<< HEAD\n", "x\n"]
    0 (by decide) (by decide)
    (by
      intro k hge hk
      have hk2 : k < 2 := by simpa using hk
      interval_cases k
      · exact rfl
      · exact rfl)

/-- C8: marker lines are classified by their seven-character prefix, not
by full-line equality: the outer loop skips a line exactly when it does
not start with `<<<<<<<` and opens a region at it (with `start_line`
there) exactly when it does, and an inner loop stops at its start index
exactly when the line starts with the scanned-for prefix (`=======` or
`>>>>>>>`) — so marker lines carrying trailing labels are still
recognized. -/
theorem C8_marker_prefix_classification (fp : String) (lines : List String)
    (i : Nat) (hi : i < lines.length) :
    (startswith (lines[i]) "<<<<<<<" = false →
      parseLoop fp lines i = parseLoop fp lines (i + 1))
    ∧ (startswith (lines[i]) "<<<<<<<" = true →
        ∃ r rest, parseLoop fp lines i = r :: rest ∧ r.start_line = i)
    ∧ (∀ pre, (scanWhileNot lines pre i).2 = i
        ↔ startswith (lines[i]) pre = true) := by
  refine ⟨?_, ?_, ?_⟩
  · intro h
    rw [parseLoop_eq, dif_pos hi, if_neg (by simp [h])]
  · intro h
    rw [parseLoop_eq, dif_pos hi, if_pos h]
    exact ⟨_, _, rfl, rfl⟩
  · intro pre
    constructor
    · intro hsnd
      by_cases hp : startswith (lines[i]) pre
      · exact hp
      · exfalso
        have he := scanWhileNot_eq lines pre i
        rw [dif_pos hi, if_neg (by simp [hp])] at he
        have hge := scanWhileNot_ge lines pre (i + 1)
        have := congrArg Prod.snd he
        simp only at this
        omega
    · intro hp
      have he := scanWhileNot_eq lines pre i
      rw [dif_pos hi, if_pos hp] at he
      rw [he]

theorem C8_witness :
    ∃ r rest, parseLoop "f" ["<<<<<<< HEAD\n"] 0 = r :: rest
      ∧ r.start_line = 0 :=
  (C8_marker_prefix_classification "f" ["<<<<<<< HEAD\n"] 0 (by decide)).2.1
    (by decide)

/-- Helper: a line found at the head of `lines.drop i` is `lines[i]`. -/
theorem getElem_of_drop_cons (lines : List String) (i : Nat) (x : String)
    (X : List String) (h : lines.drop i = x :: X) :
    ∃ (hi : i < lines.length), lines[i] = x := by
  have hi : i < lines.length := by
    by_contra hle
    push_neg at hle
    rw [List.drop_eq_nil_of_le hle] at h
    exact List.noConfusion h
  refine ⟨hi, ?_⟩
  have h0 : (lines.drop i)[0]? = some x := by rw [h]; simp
  rw [List.getElem?_drop, Nat.add_zero, List.getElem?_eq_getElem hi] at h0
  exact Option.some.inj h0

/-- Helper: an inner loop on a decomposed suffix: if the lines from
position `i` on are `M ++ t :: rest` where no line of `M` starts with
`pre` and `t` does, the loop collects exactly `M` and stops at the index
of `t`. -/
theorem scanWhileNot_segment (lines : List String) (pre : String) :
    ∀ (M : List String) (i : Nat) (t : String) (rest : List String),
      lines.drop i = M ++ t :: rest →
      (∀ l ∈ M, startswith l pre = false) →
      startswith t pre = true →
      scanWhileNot lines pre i = (M, i + M.length) := by
  intro M
  induction M with
  | nil =>
    intro i t rest h hM ht
    rw [List.nil_append] at h
    obtain ⟨hi, hx⟩ := getElem_of_drop_cons lines i t rest h
    rw [scanWhileNot_eq, dif_pos hi, hx, if_pos ht]
    simp
  | cons m M ih =>
    intro i t rest h hM ht
    rw [List.cons_append] at h
    obtain ⟨hi, hx⟩ := getElem_of_drop_cons lines i m _ h
    have htail : lines.drop (i + 1) = M ++ t :: rest := by
      rw [← List.tail_drop, h]
      rfl
    have hrec := ih (i + 1) t rest htail
      (fun l hl => hM l (List.mem_cons_of_mem m hl)) ht
    have hm : startswith (lines[i]) pre = false := by
      rw [hx]
      exact hM m (List.mem_cons_self m M)
    rw [scanWhileNot_eq, dif_pos hi, if_neg (by simp [hm])]
    rw [hrec, hx]
    show (m :: M, i + 1 + M.length) = (m :: M, i + (M.length + 1))
    have harith : i + 1 + M.length = i + (M.length + 1) := by omega
    rw [harith]

/-- Helper: the outer loop skips a block of lines none of which opens a
conflict. -/
theorem parseLoop_skip (fp : String) (lines : List String) :
    ∀ (pl : List String) (i : Nat) (rest : List String),
      lines.drop i = pl ++ rest →
      (∀ l ∈ pl, startswith l "<<<<<<<" = false) →
      parseLoop fp lines i = parseLoop fp lines (i + pl.length) := by
  intro pl
  induction pl with
  | nil =>
    intro i rest h hpl
    rw [List.length_nil, Nat.add_zero]
  | cons m pl ih =>
    intro i rest h hpl
    rw [List.cons_append] at h
    obtain ⟨hi, hx⟩ := getElem_of_drop_cons lines i m _ h
    have htail : lines.drop (i + 1) = pl ++ rest := by
      rw [← List.tail_drop, h]
      rfl
    have hm : startswith (lines[i]) "<<<<<<<" = false := by
      rw [hx]
      exact hpl m (List.mem_cons_self m pl)
    rw [parseLoop_eq, dif_pos hi, if_neg (by simp [hm])]
    rw [ih (i + 1) rest htail (fun l hl => hpl l (List.mem_cons_of_mem m hl))]
    congr 1
    simp only [List.length_cons]
    omega

/-- Helper: the outer loop ends at or past the end of the list. -/
theorem parseLoop_end (fp : String) (lines : List String) (i : Nat)
    (h : lines.length ≤ i) : parseLoop fp lines i = [] := by
  rw [parseLoop_eq, dif_neg (by omega)]

/-- Helper: the outer loop at the opening line of a well-formed chunk
emits exactly that chunk's region and resumes just past its closing
line. -/
theorem parseLoop_chunk (fp : String) (L : List String) (c : Chunk)
    (i : Nat) (rest : List String)
    (hdrop : L.drop i = c.lines ++ rest) (hc : c.Wf) :
    (parseLoop fp L i).map regionSummary
      = (i, i + c.locals.length + c.incomings.length + 2,
          String.join c.locals, String.join c.incomings)
        :: (parseLoop fp L
            (i + c.locals.length + c.incomings.length + 3)).map regionSummary := by
  obtain ⟨hopen, hlocals, hsep, hincs, hclose⟩ := hc
  have h1 : L.drop i
      = c.openL :: (c.locals ++ (c.sepL :: (c.incomings ++ (c.closeL :: rest)))) := by
    rw [hdrop]
    simp [Chunk.lines]
  obtain ⟨hiL, hxi⟩ := getElem_of_drop_cons L i c.openL _ h1
  have h2 : L.drop (i + 1)
      = c.locals ++ (c.sepL :: (c.incomings ++ (c.closeL :: rest))) := by
    rw [← List.tail_drop, h1]
    rfl
  have hscan1 := scanWhileNot_segment L "=======" c.locals (i + 1) c.sepL
    _ h2 hlocals hsep
  have h3 : L.drop (i + 1 + c.locals.length + 1)
      = c.incomings ++ (c.closeL :: rest) := by
    have hd : L.drop (i + 1 + c.locals.length)
        = c.sepL :: (c.incomings ++ (c.closeL :: rest)) := by
      have := List.drop_drop c.locals.length (i + 1) L
      rw [h2] at this
      rw [List.drop_left] at this
      rw [← this]
    rw [← List.tail_drop, hd]
    rfl
  have hscan2 := scanWhileNot_segment L ">>>>>>>" c.incomings
    (i + 1 + c.locals.length + 1) c.closeL rest h3 hincs hclose
  rw [parseLoop_eq, dif_pos hiL]
  rw [if_pos (by rw [hxi]; exact hopen)]
  simp only [hscan1]
  simp only [hscan2]
  rw [List.map_cons]
  simp only [regionSummary]
  have e2 : i + 1 + c.locals.length + 1 + c.incomings.length + 1
      = i + c.locals.length + c.incomings.length + 3 := by omega
  have e1 : i + 1 + c.locals.length + 1 + c.incomings.length
      = i + c.locals.length + c.incomings.length + 2 := by omega
  rw [e2, e1]

/-- Helper: the scan of a well-formed file built from `segs` and a
trailing plain segment, starting just after an arbitrary prefix, yields
exactly the expected region summaries. -/
theorem parseLoop_buildFile (fp : String) :
    ∀ (segs : List (List String × Chunk)) (pfx trail : List String),
      (∀ p ∈ segs, (∀ l ∈ p.1, startswith l "<<<<<<<" = false) ∧ p.2.Wf) →
      (∀ l ∈ trail, startswith l "<<<<<<<" = false) →
      (parseLoop fp (pfx ++ buildFile segs trail) pfx.length).map regionSummary
        = expectedSummaries pfx.length segs := by
  intro segs
  induction segs with
  | nil =>
    intro pfx trail hsegs htrail
    rw [buildFile]
    have hdrop : (pfx ++ trail).drop pfx.length = trail ++ [] := by
      rw [List.drop_left, List.append_nil]
    rw [parseLoop_skip fp _ trail pfx.length [] hdrop htrail]
    rw [parseLoop_end fp _ _ (le_of_eq (List.length_append pfx trail))]
    rfl
  | cons seg rest ih =>
    obtain ⟨pl, c⟩ := seg
    intro pfx trail hsegs htrail
    have hpl := (hsegs (pl, c) (List.mem_cons_self _ _)).1
    have hc := (hsegs (pl, c) (List.mem_cons_self _ _)).2
    have hrest : ∀ p ∈ rest,
        (∀ l ∈ p.1, startswith l "<<<<<<<" = false) ∧ p.2.Wf :=
      fun p hp => hsegs p (List.mem_cons_of_mem _ hp)
    rw [buildFile]
    have hdrop1 : (pfx ++ (pl ++ (Chunk.lines c ++ buildFile rest trail))).drop
        pfx.length = pl ++ (Chunk.lines c ++ buildFile rest trail) :=
      List.drop_left _ _
    rw [parseLoop_skip fp _ pl pfx.length _ hdrop1 hpl]
    have hdrop2 : (pfx ++ (pl ++ (Chunk.lines c ++ buildFile rest trail))).drop
        (pfx.length + pl.length) = Chunk.lines c ++ buildFile rest trail := by
      rw [← List.length_append, ← List.append_assoc]
      exact List.drop_left _ _
    rw [parseLoop_chunk fp _ c (pfx.length + pl.length) _ hdrop2 hc]
    have hre : pfx ++ (pl ++ (Chunk.lines c ++ buildFile rest trail))
        = (pfx ++ (pl ++ Chunk.lines c)) ++ buildFile rest trail := by
      simp [List.append_assoc]
    have hpos : pfx.length + pl.length + c.locals.length + c.incomings.length + 3
        = (pfx ++ (pl ++ Chunk.lines c)).length := by
      simp only [List.length_append, Chunk.lines, List.length_cons,
        List.length_nil]
      omega
    rw [hre, hpos]
    rw [ih (pfx ++ (pl ++ Chunk.lines c)) trail hrest htrail]
    rw [expectedSummaries]
    rw [← hpos]

/-- Helper: one expected summary per chunk. -/
theorem expectedSummaries_length :
    ∀ (segs : List (List String × Chunk)) (i : Nat),
      (expectedSummaries i segs).length = segs.length := by
  intro segs
  induction segs with
  | nil => intro i; rfl
  | cons seg rest ih =>
    obtain ⟨pl, c⟩ := seg
    intro i
    rw [expectedSummaries]
    simp [ih]

/-- Helper: the expected summaries carry strictly ascending start
lines. -/
theorem expectedSummaries_chain :
    ∀ (segs : List (List String × Chunk)) (i : Nat),
      List.Chain' (· < ·) ((expectedSummaries i segs).map (fun t => t.1)) := by
  intro segs
  induction segs with
  | nil =>
    intro i
    simp [expectedSummaries]
  | cons seg rest ih =>
    obtain ⟨pl, c⟩ := seg
    intro i
    rw [expectedSummaries, List.map_cons]
    cases rest with
    | nil => simp [expectedSummaries]
    | cons seg2 rest2 =>
      obtain ⟨pl2, c2⟩ := seg2
      rw [expectedSummaries, List.map_cons, List.chain'_cons]
      constructor
      · show i + pl.length
          < i + pl.length + c.locals.length + c.incomings.length + 3 + pl2.length
        omega
      · have hrec := ih (i + pl.length + c.locals.length + c.incomings.length + 3)
        rw [expectedSummaries, List.map_cons] at hrec
        exact hrec

/-- C4: on every well-formed input — alternating plain segments (whose
lines never start with `<<<<<<<`) and well-formed conflict chunks — the
scanner returns exactly one region per chunk in file order: the region
summaries (`start_line`, `end_line`, local content, incoming content)
are exactly the chunks' own marker positions and the original lines
strictly between their markers, the number of regions equals the number
of chunks `N`, and the `start_line`s are strictly ascending. -/
theorem C4_scan_recovers_wellformed_regions (fp : String)
    (segs : List (List String × Chunk)) (trail : List String)
    (hsegs : ∀ p ∈ segs, (∀ l ∈ p.1, startswith l "<<<<<<<" = false) ∧ p.2.Wf)
    (htrail : ∀ l ∈ trail, startswith l "<<<<<<<" = false) :
    (parse_conflict_file fp (buildFile segs trail)).map regionSummary
      = expectedSummaries 0 segs
    ∧ (parse_conflict_file fp (buildFile segs trail)).length = segs.length
    ∧ List.Chain' (· < ·)
        ((parse_conflict_file fp (buildFile segs trail)).map
          (fun r => r.start_line)) := by
  have h := parseLoop_buildFile fp segs [] trail hsegs htrail
  simp only [List.nil_append, List.length_nil] at h
  have hmain : (parse_conflict_file fp (buildFile segs trail)).map regionSummary
      = expectedSummaries 0 segs := h
  refine ⟨hmain, ?_, ?_⟩
  · have hl := congrArg List.length hmain
    rw [List.length_map, expectedSummaries_length] at hl
    exact hl
  · have hm : (parse_conflict_file fp (buildFile segs trail)).map
        (fun r => r.start_line)
        = ((parse_conflict_file fp (buildFile segs trail)).map
            regionSummary).map (fun t => t.1) := by
      rw [List.map_map]
      rfl
    rw [hm, hmain]
    exact expectedSummaries_chain segs 0

theorem C4_witness :
    (parse_conflict_file "f" (buildFile
        [(["p\n"], ⟨"<<<<<<< a\n", ["l1\n"], "=======\n", ["i1\n"], ">>>>>>> b\n"⟩),
         ([], ⟨"<<<<<<<\n", [], "=======\n", ["i2\n", "i3\n"], ">>>>>>>\n"⟩)]
        ["t\n"])).map regionSummary
      = expectedSummaries 0
        [(["p\n"], ⟨"<<<<<<< a\n", ["l1\n"], "=======\n", ["i1\n"], ">>>>>>> b\n"⟩),
         ([], ⟨"<<<<<<<\n", [], "=======\n", ["i2\n", "i3\n"], ">>>>>>>\n"⟩)] :=
  (C4_scan_recovers_wellformed_regions "f"
    [(["p\n"], ⟨"<<<<<<< a\n", ["l1\n"], "=======\n", ["i1\n"], ">>>>>>> b\n"⟩),
     ([], ⟨"<<<<<<<\n", [], "=======\n", ["i2\n", "i3\n"], ">>>>>>>\n"⟩)]
    ["t\n"] (by decide) (by decide)).1

end GitGPT
